import Mathlib

/-!
Verification of the syncthing release-build script (`build.go`).

The script's pure logic is shallowly embedded below: Go strings become
`List Char`, byte slices become `List Nat` (each element < 256 where it
matters), fallible I/O becomes `Except Err` over an explicit "world" that
fixes the outcome of every I/O primitive the code consults, and
`log.Fatal` (process abort with non-zero exit) becomes `Except.error`.
-/

namespace SyncthingBuild

/-- I/O error token; the concrete value only identifies which failure fired. -/
abbrev Err := Nat

/-- Length of the longest prefix whose characters all satisfy `p`. -/
def countWhile (p : Char → Bool) : List Char → Nat
  | [] => 0
  | c :: rest => if p c then countWhile p rest + 1 else 0

/-- `[0-9]` of the version regexes. -/
def isDigitB (c : Char) : Bool := c.isDigit

/-- `[0-9a-f]` of `versionRe`. -/
def isHexB (c : Char) : Bool := c.isDigit || ('a' ≤ c && c ≤ 'f')

/-- Length of the leftmost-first match of `versionRe`
(`-[0-9]\x7b1,3\x7d-g[0-9a-f]\x7b5,10\x7d`) anchored at the head of the
string, if any.  The digit run must be 1–3 digits immediately followed by
`-` (a longer run cannot match, because backing off inside the run leaves a
digit where `-` is required), then `g`, then at least 5 hex digits of which
the greedy quantifier consumes at most 10. -/
def matchLen : List Char → Option Nat
  | [] => none
  | c :: rest =>
    if c = '-' then
      let ds := countWhile isDigitB rest
      if 1 ≤ ds ∧ ds ≤ 3 then
        match rest.drop ds with
        | c2 :: c3 :: rest2 =>
          if c2 = '-' ∧ c3 = 'g' then
            let hs := countWhile isHexB rest2
            if 5 ≤ hs then some (3 + ds + min hs 10) else none
          else none
        | _ => none
      else none
    else none

/-- `versionRe.ReplaceAllFunc(v, func(s) \x7b s[0] = '+'; return s \x7d)`:
scan left to right; at a match of length `n`, emit `+` for the leading `-`
and pass the remaining `n - 1` bytes of the match through unchanged (the
counter argument), then resume scanning after the match. -/
def gitNormAux : Nat → List Char → List Char
  | _, [] => []
  | Nat.succ k, c :: rest => c :: gitNormAux k rest
  | 0, c :: rest =>
    match matchLen (c :: rest) with
    | some n => '+' :: gitNormAux (n - 1) rest
    | none => c :: gitNormAux 0 rest

/-- The describe-output normalization performed by `getGitVersion`. -/
def gitNormalize (s : List Char) : List Char := gitNormAux 0 s

/-- ASCII whitespace, the fragment of `unicode.IsSpace` relevant to
version strings (`bytes.TrimSpace`). -/
def isSpaceB (c : Char) : Bool :=
  c = ' ' || c = '\t' || c = '\n' || c = '\x0b' || c = '\x0c' || c = '\r'

/-- `bytes.TrimSpace`: strip leading and trailing whitespace. -/
def strTrim (s : List Char) : List Char :=
  ((s.dropWhile isSpaceB).reverse.dropWhile isSpaceB).reverse

/-- `getReleaseVersion`: `release?` is the RELEASE file's content when the
file can be opened and read, `none` when either step fails.  On success the
trimmed content is returned. -/
def getReleaseVersion (release? : Option (List Char)) : Option (List Char) :=
  release?.map strTrim

/-- `getGitVersion`: `describe?` is the (already whitespace-trimmed, per
`runError`) combined output of `git describe --always --dirty` on success,
`none` on failure.  On success the `versionRe` normalization is applied. -/
def getGitVersion (describe? : Option (List Char)) : Option (List Char) :=
  describe?.map gitNormalize

/-- `getVersion`: RELEASE file first, then git describe, then the literal
fallback. -/
def getVersion (release? describe? : Option (List Char)) : List Char :=
  match getReleaseVersion release? with
  | some v => v
  | none =>
    match getGitVersion describe? with
    | some v => v
    | none => ("unknown-dev").toList

/-- `s` and `t` agree position by position except that some `-` of `s` may
be `+` in `t`; in particular they have equal length. -/
inductive HyphenPlus : List Char → List Char → Prop
  | nil : HyphenPlus [] []
  | same (c : Char) {s t : List Char} : HyphenPlus s t → HyphenPlus (c :: s) (c :: t)
  | repl {s t : List Char} : HyphenPlus s t → HyphenPlus ('-' :: s) ('+' :: t)

theorem matchLen_head {c : Char} {rest : List Char} {n : Nat}
    (h : matchLen (c :: rest) = some n) : c = '-' := by
  by_cases hc : c = '-'
  · exact hc
  · simp [matchLen, hc] at h

theorem gitNormAux_length (s : List Char) : ∀ k, (gitNormAux k s).length = s.length := by
  induction s with
  | nil => intro k; cases k <;> rfl
  | cons c rest ih =>
    intro k
    cases k with
    | succ k => simpa [gitNormAux] using ih k
    | zero =>
      cases h : matchLen (c :: rest) with
      | none => simpa [gitNormAux, h] using ih 0
      | some n => simpa [gitNormAux, h] using ih (n - 1)

theorem gitNormAux_hyphenPlus (s : List Char) : ∀ k, HyphenPlus s (gitNormAux k s) := by
  induction s with
  | nil => intro k; cases k <;> exact .nil
  | cons c rest ih =>
    intro k
    cases k with
    | succ k =>
      show HyphenPlus (c :: rest) (c :: gitNormAux k rest)
      exact .same c (ih k)
    | zero =>
      cases h : matchLen (c :: rest) with
      | none =>
        have : gitNormAux 0 (c :: rest) = c :: gitNormAux 0 rest := by
          simp [gitNormAux, h]
        rw [this]
        exact .same c (ih 0)
      | some n =>
        have hc : c = '-' := matchLen_head h
        have : gitNormAux 0 (c :: rest) = '+' :: gitNormAux (n - 1) rest := by
          simp [gitNormAux, h]
        rw [this, hc]
        exact .repl (ih (n - 1))

theorem gitNormAux_id_of_no_match (s : List Char)
    (h : ∀ t ∈ s.tails, matchLen t = none) : gitNormAux 0 s = s := by
  induction s with
  | nil => rfl
  | cons c rest ih =>
    have hhead : matchLen (c :: rest) = none := by
      exact h (c :: rest) (by simp [List.tails_cons])
    have htail : ∀ t ∈ rest.tails, matchLen t = none := by
      intro t ht
      exact h t (by simp [List.tails_cons, ht])
    simp [gitNormAux, hhead, ih htail]

/-- C2: the describe-output normalization replaces only leading hyphens of
`versionRe` matches with `+`, keeps every other byte identical (so tag
prefix and `g<hash>` suffix are byte-identical and length is preserved),
leaves match-free strings untouched, and maps `v1.2.3-5-gabcdef01` to
`v1.2.3+5-gabcdef01`. -/
theorem getGitVersion_normalization :
    (∀ s : List Char, HyphenPlus s (gitNormalize s)) ∧
    (∀ s : List Char, (gitNormalize s).length = s.length) ∧
    (∀ s : List Char, (∀ t ∈ s.tails, matchLen t = none) → gitNormalize s = s) ∧
    gitNormalize (("v1.2.3-5-gabcdef01").toList) = ("v1.2.3+5-gabcdef01").toList := by
  refine ⟨fun s => gitNormAux_hyphenPlus s 0, fun s => gitNormAux_length s 0,
    fun s h => gitNormAux_id_of_no_match s h, by decide⟩

theorem getGitVersion_normalization_witness :
    gitNormalize (("v1.2.3").toList) = ("v1.2.3").toList :=
  getGitVersion_normalization.2.2.1 (("v1.2.3").toList) (by decide)

/-- C3: version resolution tries the RELEASE file first (trimmed content
returned with no normalization, whatever the git state), then the
normalized describe output, then the literal fallback `unknown-dev`; the
fallback step is total. -/
theorem getVersion_priority :
    (∀ git, getVersion (some (("v9.9.9").toList)) git = ("v9.9.9").toList) ∧
    (∀ rel git, getVersion (some rel) git = strTrim rel) ∧
    (∀ git, getVersion none (some git) = gitNormalize git) ∧
    getVersion none none = ("unknown-dev").toList := by
  refine ⟨fun git => ?_, fun rel git => rfl, fun git => rfl, rfl⟩
  show strTrim (("v9.9.9").toList) = ("v9.9.9").toList
  decide

/-- C9 counterexample: a readable RELEASE file holding a single blank makes
`getVersion` return the empty string even though a git version was
available, violating the non-emptiness invariant as claimed. -/
theorem getVersion_empty_from_blank_release :
    getVersion (some [' ']) (some (("v1.0.0").toList)) = [] := rfl

/-- C9 amended: `getVersion` is non-empty provided each consulted source is
non-degenerate — the RELEASE content, when the file is readable, does not
trim to the empty string, and the describe output, when used, is
non-empty; the fallback token is always non-empty. -/
theorem getVersion_nonempty (rel git : Option (List Char))
    (hrel : ∀ r, rel = some r → strTrim r ≠ [])
    (hgit : ∀ g, git = some g → g ≠ []) :
    getVersion rel git ≠ [] := by
  cases rel with
  | some r => exact hrel r rfl
  | none =>
    cases git with
    | some g =>
      show gitNormalize g ≠ []
      intro hcon
      have hlen : (gitNormalize g).length = g.length := gitNormAux_length g 0
      rw [hcon] at hlen
      exact hgit g rfl (List.length_eq_zero.mp hlen.symm)
    | none =>
      show ("unknown-dev").toList ≠ []
      decide

theorem getVersion_nonempty_witness :
    getVersion (some (("v9.9.9").toList)) none ≠ [] :=
  getVersion_nonempty _ _ (fun r hr => by cases hr; decide) (fun g hg => by cases hg)

/-- `strconv` digit-run value: `digitsToNatAux acc ds` folds decimal digits
onto `acc`. -/
def digitsToNatAux (acc : Nat) : List Char → Nat
  | [] => acc
  | c :: rest => digitsToNatAux (acc * 10 + (c.toNat - 48)) rest

/-- Numeric value of a decimal digit run. -/
def digitsToNat (s : List Char) : Nat := digitsToNatAux 0 s

/-- Exact numeric value of `strconv.ParseFloat` on the matched
`<major>.<minor>` token, as a rational.  For every token of at most 15
significant digits the IEEE-754 comparison the code performs against its
`1.3` constant orders the same way as this exact value, since
decimal-to-double rounding is monotone and injective on such tokens. -/
def goVerValue (maj minr : List Char) : ℚ :=
  (digitsToNat maj : ℚ) + (digitsToNat minr : ℚ) / (10 : ℚ) ^ minr.length

/-- `const minGoVersion = 1.3`. -/
def minGoVersion : ℚ := 13 / 10

/-- Match of `go version go(\d+\.\d+)` anchored at the head: the literal
prefix, then a maximal digit run (a shorter run cannot be followed by `.`,
since the next byte would be a digit), a dot, and a maximal digit run.
Returns the two captured digit runs. -/
def goVersionMatchAt (s : List Char) : Option (List Char × List Char) :=
  if (("go version go").toList).isPrefixOf s then
    let rest := s.drop 13
    let ds := countWhile isDigitB rest
    if 1 ≤ ds then
      match rest.drop ds with
      | c :: rest2 =>
        if c = '.' then
          let ds2 := countWhile isDigitB rest2
          if 1 ≤ ds2 then some (rest.take ds, rest2.take ds2) else none
        else none
      | [] => none
    else none
  else none

/-- Leftmost match of `go version go(\d+\.\d+)` in the report. -/
def goVersionFind : List Char → Option (List Char × List Char)
  | [] => none
  | c :: rest =>
    match goVersionMatchAt (c :: rest) with
    | some r => some r
    | none => goVersionFind rest

/-- Outcome of `checkRequiredGoVersion`: continue silently, continue after
a warning (`log.Printf`), or abort the invocation (`log.Fatalf`). -/
inductive GateResult
  | proceed
  | warnProceed
  | fatal
deriving DecidableEq

/-- `checkRequiredGoVersion` on the toolchain's version self-report.  The
`ParseFloat` error branch of the source is unreachable for tokens this
regex shape yields (sub-astronomical digit runs always parse), so the
unparseable path is exactly "regex does not match". -/
def checkRequiredGoVersion (ver : List Char) : GateResult :=
  match goVersionFind ver with
  | none => .warnProceed
  | some (maj, minr) =>
    if goVerValue maj minr < minGoVersion then .fatal else .proceed

/-- C5: an unparseable self-report proceeds with a warning; a parsed value
numerically below the 1.3 minimum aborts fatally; a parsed value at or
above the minimum proceeds. -/
theorem checkRequiredGoVersion_gate :
    (∀ v, goVersionFind v = none → checkRequiredGoVersion v = .warnProceed) ∧
    (∀ v maj minr, goVersionFind v = some (maj, minr) →
      goVerValue maj minr < minGoVersion → checkRequiredGoVersion v = .fatal) ∧
    (∀ v maj minr, goVersionFind v = some (maj, minr) →
      minGoVersion ≤ goVerValue maj minr → checkRequiredGoVersion v = .proceed) := by
  refine ⟨fun v h => ?_, fun v maj minr h hlt => ?_, fun v maj minr h hge => ?_⟩
  · simp [checkRequiredGoVersion, h]
  · simp [checkRequiredGoVersion, h, hlt]
  · simp [checkRequiredGoVersion, h, not_lt.mpr hge]

theorem checkRequiredGoVersion_gate_witness :
    checkRequiredGoVersion (("go version go1.2 linux/amd64").toList) = .fatal ∧
    checkRequiredGoVersion (("go version go1.3 linux/amd64").toList) = .proceed ∧
    checkRequiredGoVersion (("gccgo mystery string").toList) = .warnProceed := by
  have e1 : digitsToNat (("1").toList) = 1 := by decide
  have e2 : digitsToNat (("2").toList) = 2 := by decide
  have e3 : digitsToNat (("3").toList) = 3 := by decide
  have el : ((("2").toList)).length = 1 := by decide
  have el3 : ((("3").toList)).length = 1 := by decide
  refine ⟨?_, ?_, ?_⟩
  · refine checkRequiredGoVersion_gate.2.1 _ (("1").toList) (("2").toList) (by decide) ?_
    unfold goVerValue minGoVersion
    rw [e1, e2, el]
    norm_num
  · refine checkRequiredGoVersion_gate.2.2 _ (("1").toList) (("3").toList) (by decide) ?_
    unfold goVerValue minGoVersion
    rw [e1, e3, el3]
    norm_num
  · exact checkRequiredGoVersion_gate.1 _ (by decide)

/-- `strings.Replace(s, old, new, -1)` for non-empty `old`: replace every
non-overlapping occurrence, scanning left to right.  The counter holds how
many consumed bytes of a just-matched `old` remain to drop. -/
def replaceAllAux {α : Type} [DecidableEq α] (old new : List α) : Nat → List α → List α
  | _, [] => []
  | Nat.succ k, _ :: rest => replaceAllAux old new k rest
  | 0, c :: rest =>
    if old.isPrefixOf (c :: rest) ∧ old ≠ [] then
      new ++ replaceAllAux old new (old.length - 1) rest
    else c :: replaceAllAux old new 0 rest

/-- `strings.Replace(s, old, new, -1)`. -/
def replaceAll {α : Type} [DecidableEq α] (old new s : List α) : List α :=
  replaceAllAux old new 0 s

/-- `debarch`: the 32-bit x86 designator is renamed for deb packaging; all
other architecture tokens pass through. -/
def debArch (goarch : List Char) : List Char :=
  if goarch = ("386").toList then ("i386").toList else goarch

def archPlaceholder : List Char := ("\x7b\x7barch\x7d\x7d").toList

def versionPlaceholder : List Char := ("\x7b\x7bversion\x7d\x7d").toList

def datePlaceholder : List Char := ("\x7b\x7bdate\x7d\x7d").toList

/-- The fixed `control` template of `buildDeb`. -/
def controlTemplate : List Char :=
  ("Package: syncthing\nArchitecture: \x7b\x7barch\x7d\x7d\nDepends: libc6\nVersion: \x7b\x7bversion\x7d\x7d\nMaintainer: Syncthing Release Management <release@syncthing.net>\nDescription: Open Source Continuous File Synchronization\n\tSyncthing does bidirectional synchronization of files between two or\n\tmore computers.\n").toList

/-- The fixed `changelog` template of `buildDeb`. -/
def changelogTemplate : List Char :=
  ("syncthing (\x7b\x7bversion\x7d\x7d); urgency=medium\n\n  * Packaging of \x7b\x7bversion\x7d\x7d.\n\n -- Jakob Borg <jakob@nym.se>  \x7b\x7bdate\x7d\x7d\n").toList

/-- `buildDeb`'s control file: replace the arch placeholder with the
renamed architecture, then the version placeholder with `version[1:]`. -/
def buildDebControl (goarch ver : List Char) : List Char :=
  replaceAll versionPlaceholder (ver.drop 1)
    (replaceAll archPlaceholder (debArch goarch) controlTemplate)

/-- `buildDeb`'s changelog file: arch, then version, then date. -/
def buildDebChangelog (goarch ver date : List Char) : List Char :=
  replaceAll datePlaceholder date
    (replaceAll versionPlaceholder (ver.drop 1)
      (replaceAll archPlaceholder (debArch goarch) changelogTemplate))

set_option maxRecDepth 4096 in
/-- C6: the `386` token is renamed `i386` and every other token passes
through; the version substituted is the resolved version with its leading
marker byte stripped; substitution is literal replacement into the two
fixed templates, shown concretely for both files. -/
theorem buildDeb_templating :
    debArch (("386").toList) = ("i386").toList ∧
    (∀ a, a ≠ ("386").toList → debArch a = a) ∧
    (∀ arch rest, buildDebControl arch ('v' :: rest) =
      replaceAll versionPlaceholder rest
        (replaceAll archPlaceholder (debArch arch) controlTemplate)) ∧
    buildDebControl (("386").toList) (("v0.10.5").toList) =
      ("Package: syncthing\nArchitecture: i386\nDepends: libc6\nVersion: 0.10.5\nMaintainer: Syncthing Release Management <release@syncthing.net>\nDescription: Open Source Continuous File Synchronization\n\tSyncthing does bidirectional synchronization of files between two or\n\tmore computers.\n").toList ∧
    buildDebChangelog (("amd64").toList) (("v0.10.5").toList)
        (("Thu, 01 Jan 2015 00:00:00 UTC").toList) =
      ("syncthing (0.10.5); urgency=medium\n\n  * Packaging of 0.10.5.\n\n -- Jakob Borg <jakob@nym.se>  Thu, 01 Jan 2015 00:00:00 UTC\n").toList := by
  refine ⟨by decide, fun a ha => ?_, fun arch rest => rfl, by rfl, by rfl⟩
  unfold debArch
  rw [if_neg ha]

theorem buildDeb_templating_witness :
    debArch (("amd64").toList) = ("amd64").toList :=
  buildDeb_templating.2.1 (("amd64").toList) (by decide)

/-- An opened source file together with its `Stat` result: content bytes
(`Size` is their length, `io.Copy` streams exactly them), full mode bits,
and modification time in seconds. -/
structure SrcFile where
  content : List Nat
  mode : Nat
  modTime : Int
deriving DecidableEq

/-- The `archiveFile` manifest entry of the source. -/
structure archiveFile where
  src : List Char
  dst : List Char
  perm : Nat
deriving DecidableEq

/-- The tar header fields `tarGz` populates. -/
structure TarHeader where
  name : List Char
  size : Nat
  mode : Nat
  modTime : Int
deriving DecidableEq

/-- Outcome of every I/O primitive `tarGz` consults, keyed by source path
where per-entry.  `some e` means that call fails with `e`. -/
structure TarWorld where
  createErr : Option Err
  openErr : List Char → Option Err
  statErr : List Char → Option Err
  fileData : List Char → SrcFile
  writeHeaderErr : List Char → Option Err
  copyErr : List Char → Option Err
  closeTarErr : Option Err
  closeGzErr : Option Err
  closeOutErr : Option Err

/-- One iteration of `tarGz`'s entry loop: open, stat, write the header
(destination name, source size, source mode — not the manifest `perm` —
and source modification time), stream the bytes.  The trailing
`sf.Close()` of the source file has its result discarded by the source. -/
def tarEntryStep (w : TarWorld) (f : archiveFile) : Except Err (TarHeader × List Nat) :=
  match w.openErr f.src with
  | some e => .error e
  | none =>
    match w.statErr f.src with
    | some e => .error e
    | none =>
      let info := w.fileData f.src
      match w.writeHeaderErr f.src with
      | some e => .error e
      | none =>
        match w.copyErr f.src with
        | some e => .error e
        | none =>
          .ok (TarHeader.mk f.dst info.content.length info.mode info.modTime, info.content)

/-- `tarGz`'s loop over the manifest, first failure aborting. -/
def tarLoop (w : TarWorld) : List archiveFile → Except Err (List (TarHeader × List Nat))
  | [] => .ok []
  | f :: rest =>
    match tarEntryStep w f with
    | .error e => .error e
    | .ok ent =>
      match tarLoop w rest with
      | .error e => .error e
      | .ok es => .ok (ent :: es)

/-- `tarGz`: create the output, write all entries, then close the tar
stream, the gzip stream and the output file in that order, each close
checked.  The value is the sequence of (header, byte content) records the
archive carries; `Except.error` is `log.Fatal`. -/
def tarGz (w : TarWorld) (files : List archiveFile) : Except Err (List (TarHeader × List Nat)) :=
  match w.createErr with
  | some e => .error e
  | none =>
    match tarLoop w files with
    | .error e => .error e
    | .ok es =>
      match w.closeTarErr with
      | some e => .error e
      | none =>
        match w.closeGzErr with
        | some e => .error e
        | none =>
          match w.closeOutErr with
          | some e => .error e
          | none => .ok es

/-- A world where every I/O call succeeds and `fd` gives the files. -/
def allOkTar (fd : List Char → SrcFile) : TarWorld :=
  { createErr := none, openErr := fun _ => none, statErr := fun _ => none,
    fileData := fd, writeHeaderErr := fun _ => none, copyErr := fun _ => none,
    closeTarErr := none, closeGzErr := none, closeOutErr := none }

/-- The records `tarGz` emits for a manifest when no I/O call fails. -/
def tarEntries (fd : List Char → SrcFile) (files : List archiveFile) :
    List (TarHeader × List Nat) :=
  files.map fun f =>
    (TarHeader.mk f.dst (fd f.src).content.length (fd f.src).mode (fd f.src).modTime,
     (fd f.src).content)

theorem tarEntryStep_allOk (fd : List Char → SrcFile) (f : archiveFile) :
    tarEntryStep (allOkTar fd) f =
      .ok (TarHeader.mk f.dst (fd f.src).content.length (fd f.src).mode (fd f.src).modTime,
        (fd f.src).content) := rfl

theorem tarLoop_allOk (fd : List Char → SrcFile) (files : List archiveFile) :
    tarLoop (allOkTar fd) files = .ok (tarEntries fd files) := by
  induction files with
  | nil => rfl
  | cons f rest ih => simp [tarLoop, tarEntryStep_allOk, ih, tarEntries]

theorem tarGz_allOk (fd : List Char → SrcFile) (files : List archiveFile) :
    tarGz (allOkTar fd) files = .ok (tarEntries fd files) := by
  unfold tarGz
  rw [tarLoop_allOk]
  rfl

/-- C7: with every I/O call succeeding, `tarGz` emits, in manifest order,
one record per entry whose header carries the destination path, the source
byte size, the source's full mode bits and the source modification time,
and whose content is the source's bytes; the manifest `perm` field has no
effect on the result. -/
theorem tarGz_header_fields :
    (∀ fd files, tarGz (allOkTar fd) files =
      .ok (files.map fun f =>
        (TarHeader.mk f.dst (fd f.src).content.length (fd f.src).mode (fd f.src).modTime,
         (fd f.src).content))) ∧
    (∀ fd files p, tarGz (allOkTar fd) (files.map fun f => archiveFile.mk f.src f.dst p) =
      tarGz (allOkTar fd) files) := by
  constructor
  · intro fd files
    exact tarGz_allOk fd files
  · intro fd files p
    rw [tarGz_allOk, tarGz_allOk]
    show Except.ok (tarEntries fd (files.map fun f => archiveFile.mk f.src f.dst p)) =
      Except.ok (tarEntries fd files)
    congr 1
    unfold tarEntries
    rw [List.map_map]
    rfl

/-- Files and manifest with two entries sharing the destination `dup`. -/
def fsDup : List Char → SrcFile :=
  fun s => if s = ("a").toList then SrcFile.mk [1] 420 0 else SrcFile.mk [2] 493 0

/-- A manifest whose two entries share one destination path. -/
def dupManifest : List archiveFile :=
  [archiveFile.mk (("a").toList) (("dup").toList) 0,
   archiveFile.mk (("b").toList) (("dup").toList) 0]

/-- C4 counterexample: a manifest with two entries sharing the destination
`dup` is archived without any failure — `tarGz` returns `.ok` and writes
both records, each named `dup`. -/
theorem tarGz_duplicate_dst_not_failure :
    tarGz (allOkTar fsDup) dupManifest =
      .ok [(TarHeader.mk (("dup").toList) 1 420 0, [1]),
           (TarHeader.mk (("dup").toList) 1 493 0, [2])] := rfl

/-- C4 amended: no destination-uniqueness check exists; `tarGz` writes the
manifest entries in order whatever the destinations, so duplicate
destinations are silently written (never a build-time failure), every
entry's destination appearing in the archive. -/
theorem tarGz_no_uniqueness_check (fd : List Char → SrcFile) (files : List archiveFile) :
    tarGz (allOkTar fd) files = .ok (tarEntries fd files) ∧
    (tarEntries fd files).map (fun e => e.1.name) = files.map archiveFile.dst := by
  refine ⟨tarGz_allOk fd files, ?_⟩
  unfold tarEntries
  rw [List.map_map]
  rfl

/-- The zip entry data `zipFile` determines: archived name (the manifest
destination), compression method, the declared uncompressed size, and the
bytes written (what decompression yields). -/
structure ZipEntry where
  name : List Char
  method : Nat
  uncompressedSize : Nat
  content : List Nat
deriving DecidableEq

/-- `zip.Deflate`. -/
def zipDeflate : Nat := 8

/-- Outcome of every I/O primitive `zipFile` consults, keyed by source
path where per-entry.  `writeErr` is the outcome of the `of.Write(bs)`
call in the text branch: the source discards its return values, but the
`compress/flate` stream underneath the entry writer remembers a failure
and returns it from the next operation that flushes the stream — the
`zw.CreateHeader` of the following entry or the final `zw.Close`, both of
which the source checks.  `copyErr` is the error `io.Copy` reports in the
binary branch, which the source checks directly. -/
structure ZipWorld where
  createErr : Option Err
  openErr : List Char → Option Err
  statErr : List Char → Option Err
  fileInfoHeaderErr : List Char → Option Err
  fileData : List Char → SrcFile
  readAllErr : List Char → Option Err
  createHeaderErr : List Char → Option Err
  writeErr : List Char → Option Err
  copyErr : List Char → Option Err
  closeZipErr : Option Err
  closeOutErr : Option Err

/-- One iteration of `zipFile`'s entry loop: open, stat, build the header
from the file info, rename it to the destination, force Deflate; on a
`.txt` destination read the whole source, apply the line-ending
conversion `bytes.Replace(bs, [LF], [LF, CR], -1)`, redeclare the
uncompressed size as the transformed length and write the bytes.
`pending` is the error the deflate stream remembers from the previous
entry's discarded `of.Write`: `zw.CreateHeader` flushes that stream
first, so a remembered error resurfaces there and the source's check
turns it fatal.  The step result carries the error the current entry's
`of.Write(bs)` leaves behind in the stream (always `none` for the binary
branch, whose `io.Copy` result is checked on the spot). -/
def zipEntryStep (w : ZipWorld) (pending : Option Err) (f : archiveFile) :
    Except Err (ZipEntry × Option Err) :=
  match w.openErr f.src with
  | some e => .error e
  | none =>
    match w.statErr f.src with
    | some e => .error e
    | none =>
      match w.fileInfoHeaderErr f.src with
      | some e => .error e
      | none =>
        let info := w.fileData f.src
        if ((".txt").toList).isSuffixOf f.dst then
          match w.readAllErr f.src with
          | some e => .error e
          | none =>
            let bs := replaceAll [10] [10, 13] info.content
            match pending with
            | some e => .error e
            | none =>
              match w.createHeaderErr f.src with
              | some e => .error e
              | none =>
                .ok (ZipEntry.mk f.dst zipDeflate bs.length bs, w.writeErr f.src)
        else
          match pending with
          | some e => .error e
          | none =>
            match w.createHeaderErr f.src with
            | some e => .error e
            | none =>
              match w.copyErr f.src with
              | some e => .error e
              | none =>
                .ok (ZipEntry.mk f.dst zipDeflate info.content.length info.content, none)

/-- `zipFile`'s loop over the manifest, first checked failure aborting,
threading the deflate stream's remembered write error. -/
def zipLoop (w : ZipWorld) (pending : Option Err) :
    List archiveFile → Except Err (List ZipEntry × Option Err)
  | [] => .ok ([], pending)
  | f :: rest =>
    match zipEntryStep w pending f with
    | .error e => .error e
    | .ok (ent, pending') =>
      match zipLoop w pending' rest with
      | .error e => .error e
      | .ok (es, pfin) => .ok (ent :: es, pfin)

/-- `zipFile`: create the output, write all entries, close the zip writer
and then the output file, each close checked; `zw.Close` flushes the last
entry through the deflate stream, so a write error remembered there
resurfaces at that checked close.  `Except.error` is `log.Fatal`. -/
def zipFile (w : ZipWorld) (files : List archiveFile) : Except Err (List ZipEntry) :=
  match w.createErr with
  | some e => .error e
  | none =>
    match zipLoop w none files with
    | .error e => .error e
    | .ok (es, pending) =>
      match pending with
      | some e => .error e
      | none =>
        match w.closeZipErr with
        | some e => .error e
        | none =>
          match w.closeOutErr with
          | some e => .error e
          | none => .ok es

/-- A zip world where every I/O call succeeds and `fd` gives the files. -/
def allOkZip (fd : List Char → SrcFile) : ZipWorld :=
  { createErr := none, openErr := fun _ => none, statErr := fun _ => none,
    fileInfoHeaderErr := fun _ => none, fileData := fd, readAllErr := fun _ => none,
    createHeaderErr := fun _ => none, writeErr := fun _ => none,
    copyErr := fun _ => none, closeZipErr := none, closeOutErr := none }

/-- The file store for the line-ending tests: every path holds the bytes
of `"a\nb\n"`. -/
def fsText : List Char → SrcFile := fun _ => SrcFile.mk [97, 10, 98, 10] 420 0

/-- C1 at the failing input: for the `.txt` destination the archived bytes
of source `"a\nb\n"` (97 10 98 10) are `"a\n\rb\n\r"` (97 10 13 98 10 13)
— a carriage return is inserted AFTER every line feed, unconditionally —
with the declared uncompressed size recomputed to the transformed length 6,
which differs from the claimed `"a\r\nb\r\n"` (97 13 10 98 13 10); a
non-`.txt` destination is archived byte-for-byte identical. -/
theorem zipFile_txt_conversion_behavior :
    zipFile (allOkZip fsText) [archiveFile.mk (("x").toList) (("x.txt").toList) 0] =
      .ok [ZipEntry.mk (("x.txt").toList) 8 6 [97, 10, 13, 98, 10, 13]] ∧
    zipFile (allOkZip fsText) [archiveFile.mk (("x").toList) (("x.bin").toList) 0] =
      .ok [ZipEntry.mk (("x.bin").toList) 8 4 [97, 10, 98, 10]] ∧
    ([97, 10, 13, 98, 10, 13] : List Nat) ≠ [97, 13, 10, 98, 13, 10] := by
  refine ⟨rfl, rfl, by decide⟩

/-- A zip world where every primitive succeeds except possibly the
`of.Write` of the text branch, whose outcome is `we`. -/
def zipWriteWorld (fd : List Char → SrcFile) (we : List Char → Option Err) : ZipWorld :=
  { allOkZip fd with writeErr := we }

theorem zipEntryStep_pending_error (fd : List Char → SrcFile) (we : List Char → Option Err)
    (e : Err) (f : archiveFile) :
    zipEntryStep (zipWriteWorld fd we) (some e) f = .error e := by
  have hred : zipEntryStep (zipWriteWorld fd we) (some e) f =
      (if ((".txt").toList).isSuffixOf f.dst then Except.error e else Except.error e) := rfl
  rw [hred]
  exact ite_self _

theorem zipEntryStep_ok_inv (fd : List Char → SrcFile) (we : List Char → Option Err)
    (pending : Option Err) (f : archiveFile) (ent : ZipEntry) (p' : Option Err)
    (h : zipEntryStep (zipWriteWorld fd we) pending f = .ok (ent, p')) :
    pending = none ∧ (((".txt").toList).isSuffixOf f.dst = true → p' = we f.src) := by
  cases pending with
  | some e => rw [zipEntryStep_pending_error] at h; cases h
  | none =>
    refine ⟨rfl, fun htxt => ?_⟩
    have hred : zipEntryStep (zipWriteWorld fd we) none f =
        (if ((".txt").toList).isSuffixOf f.dst then
          Except.ok (ZipEntry.mk f.dst zipDeflate
            (replaceAll [10] [10, 13] (fd f.src).content).length
            (replaceAll [10] [10, 13] (fd f.src).content), we f.src)
        else
          Except.ok (ZipEntry.mk f.dst zipDeflate (fd f.src).content.length
            (fd f.src).content, none)) := rfl
    rw [hred, if_pos htxt] at h
    injection h with h1
    exact (congrArg Prod.snd h1).symm

theorem zipLoop_ok_no_write_error (fd : List Char → SrcFile) (we : List Char → Option Err)
    (files : List archiveFile) :
    ∀ pending es, zipLoop (zipWriteWorld fd we) pending files = .ok (es, none) →
      pending = none ∧
      ∀ f ∈ files, ((".txt").toList).isSuffixOf f.dst = true → we f.src = none := by
  induction files with
  | nil =>
    intro pending es h
    unfold zipLoop at h
    injection h with h1
    exact ⟨congrArg Prod.snd h1, fun f hf _ => absurd hf (List.not_mem_nil f)⟩
  | cons f rest ih =>
    intro pending es h
    unfold zipLoop at h
    split at h
    · cases h
    · rename_i ent p' hstep
      split at h
      · cases h
      · rename_i es' pfin hloop
        injection h with h1
        have hpf : pfin = none := congrArg Prod.snd h1
        subst hpf
        obtain ⟨hp', hrest⟩ := ih p' es' hloop
        subst hp'
        obtain ⟨hpend, htxtf⟩ := zipEntryStep_ok_inv fd we pending f ent none hstep
        refine ⟨hpend, ?_⟩
        intro g hg hgtxt
        rcases List.mem_cons.mp hg with rfl | hg'
        · exact (htxtf hgtxt).symm
        · exact hrest g hg' hgtxt

theorem zipFile_ok_no_write_error (fd : List Char → SrcFile) (we : List Char → Option Err)
    (files : List archiveFile) (es : List ZipEntry)
    (h : zipFile (zipWriteWorld fd we) files = .ok es) :
    ∀ f ∈ files, ((".txt").toList).isSuffixOf f.dst = true → we f.src = none := by
  have hred : zipFile (zipWriteWorld fd we) files =
      (match zipLoop (zipWriteWorld fd we) none files with
       | .error e => .error e
       | .ok (es, pending) =>
         match pending with
         | some e => .error e
         | none => .ok es) := rfl
  rw [hred] at h
  split at h
  · cases h
  · rename_i es' pending hloop
    cases pending with
    | some e => simp at h
    | none => exact (zipLoop_ok_no_write_error fd we files none es' hloop).2

theorem zipFile_txt_write_error_aborts (fd : List Char → SrcFile) (we : List Char → Option Err)
    (files : List archiveFile)
    (h : ∃ f ∈ files, ((".txt").toList).isSuffixOf f.dst = true ∧ (we f.src).isSome = true) :
    ∃ e, zipFile (zipWriteWorld fd we) files = .error e := by
  cases hz : zipFile (zipWriteWorld fd we) files with
  | error e => exact ⟨e, rfl⟩
  | ok es =>
    obtain ⟨f, hf, htxt, hsome⟩ := h
    have hnone := zipFile_ok_no_write_error fd we files es hz f hf htxt
    rw [hnone] at hsome
    simp at hsome

/-- C8: every entry I/O failure and every archive-stream close failure in
`zipFile` and `tarGz` aborts with an error.  The `of.Write(bs)` result of
the `.txt` branch is discarded by the source, but the deflate stream
remembers the failure and the next checked `zw.CreateHeader` or
`zw.Close` returns it, so no entry I/O error is silently ignored: a run
that ends in `.ok` implies no `.txt` write failed, a write failure on any
`.txt` entry forces an abort, and concretely the remembered error 7
surfaces at the following entry's `CreateHeader` and, for a final `.txt`
entry, at `zw.Close`; open, read-all, copy and the checked closes of both
archivers abort directly. -/
theorem zip_tar_entry_io_failures_abort :
    (∀ fd we files es, zipFile (zipWriteWorld fd we) files = .ok es →
      ∀ f ∈ files, ((".txt").toList).isSuffixOf f.dst = true → we f.src = none) ∧
    (∀ fd we files,
      (∃ f ∈ files, ((".txt").toList).isSuffixOf f.dst = true ∧ (we f.src).isSome = true) →
      ∃ e, zipFile (zipWriteWorld fd we) files = .error e) ∧
    zipFile (zipWriteWorld fsText (fun _ => some 7))
      [archiveFile.mk (("x").toList) (("x.txt").toList) 0,
       archiveFile.mk (("y").toList) (("y.bin").toList) 0] = .error 7 ∧
    zipFile (zipWriteWorld fsText (fun _ => some 7))
      [archiveFile.mk (("x").toList) (("x.txt").toList) 0] = .error 7 ∧
    zipFile { allOkZip fsText with openErr := fun _ => some 2 }
      [archiveFile.mk (("x").toList) (("x.txt").toList) 0] = .error 2 ∧
    zipFile { allOkZip fsText with readAllErr := fun _ => some 3 }
      [archiveFile.mk (("x").toList) (("x.txt").toList) 0] = .error 3 ∧
    zipFile { allOkZip fsText with copyErr := fun _ => some 4 }
      [archiveFile.mk (("x").toList) (("x.bin").toList) 0] = .error 4 ∧
    zipFile { allOkZip fsText with closeZipErr := some 5 } [] = .error 5 ∧
    zipFile { allOkZip fsText with closeOutErr := some 6 } [] = .error 6 ∧
    tarGz { allOkTar fsDup with closeTarErr := some 7 } [] = .error 7 ∧
    tarGz { allOkTar fsDup with closeGzErr := some 8 } [] = .error 8 ∧
    tarGz { allOkTar fsDup with copyErr := fun _ => some 9 } dupManifest = .error 9 :=
  ⟨zipFile_ok_no_write_error, zipFile_txt_write_error_aborts,
   rfl, rfl, rfl, rfl, rfl, rfl, rfl, rfl, rfl, rfl⟩

theorem zip_tar_entry_io_failures_abort_witness :
    (fun _ : List Char => (none : Option Err)) (("x").toList) = none :=
  zip_tar_entry_io_failures_abort.1 fsText (fun _ => none)
    [archiveFile.mk (("x").toList) (("x.txt").toList) 0]
    [ZipEntry.mk (("x.txt").toList) 8 6 [97, 10, 13, 98, 10, 13]]
    rfl
    (archiveFile.mk (("x").toList) (("x.txt").toList) 0)
    (List.mem_cons_self _ _)
    (by decide)

def u32mod : Nat := 4294967296

def mask32 : Nat := 4294967295

/-- 32-bit modular addition. -/
def add32 (a b : Nat) : Nat := (a + b) % u32mod

/-- 32-bit bitwise complement. -/
def not32 (a : Nat) : Nat := mask32 ^^^ a

/-- 32-bit left rotation. -/
def rotl32 (x s : Nat) : Nat := ((x <<< s) ||| (x >>> (32 - s))) &&& mask32

/-- The 64 MD5 sine-derived round constants (RFC 1321). -/
def md5K : List Nat :=
  [0xd76aa478, 0xe8c7b756, 0x242070db, 0xc1bdceee,
   0xf57c0faf, 0x4787c62a, 0xa8304613, 0xfd469501,
   0x698098d8, 0x8b44f7af, 0xffff5bb1, 0x895cd7be,
   0x6b901122, 0xfd987193, 0xa679438e, 0x49b40821,
   0xf61e2562, 0xc040b340, 0x265e5a51, 0xe9b6c7aa,
   0xd62f105d, 0x02441453, 0xd8a1e681, 0xe7d3fbc8,
   0x21e1cde6, 0xc33707d6, 0xf4d50d87, 0x455a14ed,
   0xa9e3e905, 0xfcefa3f8, 0x676f02d9, 0x8d2a4c8a,
   0xfffa3942, 0x8771f681, 0x6d9d6122, 0xfde5380c,
   0xa4beea44, 0x4bdecfa9, 0xf6bb4b60, 0xbebfbc70,
   0x289b7ec6, 0xeaa127fa, 0xd4ef3085, 0x04881d05,
   0xd9d4d039, 0xe6db99e5, 0x1fa27cf8, 0xc4ac5665,
   0xf4292244, 0x432aff97, 0xab9423a7, 0xfc93a039,
   0x655b59c3, 0x8f0ccc92, 0xffeff47d, 0x85845dd1,
   0x6fa87e4f, 0xfe2ce6e0, 0xa3014314, 0x4e0811a1,
   0xf7537e82, 0xbd3af235, 0x2ad7d2bb, 0xeb86d391]

/-- The 64 MD5 per-round rotation amounts. -/
def md5Shifts : List Nat :=
  [7, 12, 17, 22, 7, 12, 17, 22, 7, 12, 17, 22, 7, 12, 17, 22,
   5, 9, 14, 20, 5, 9, 14, 20, 5, 9, 14, 20, 5, 9, 14, 20,
   4, 11, 16, 23, 4, 11, 16, 23, 4, 11, 16, 23, 4, 11, 16, 23,
   6, 10, 15, 21, 6, 10, 15, 21, 6, 10, 15, 21, 6, 10, 15, 21]

/-- The MD5 round mixing function, by round index. -/
def md5F (i b c d : Nat) : Nat :=
  if i < 16 then (b &&& c) ||| (not32 b &&& d)
  else if i < 32 then (d &&& b) ||| (not32 d &&& c)
  else if i < 48 then b ^^^ c ^^^ d
  else c ^^^ (b ||| not32 d)

/-- The MD5 message-word schedule, by round index. -/
def md5G (i : Nat) : Nat :=
  if i < 16 then i
  else if i < 32 then (5 * i + 1) % 16
  else if i < 48 then (3 * i + 5) % 16
  else (7 * i) % 16

/-- The four 32-bit MD5 chaining words. -/
structure MD5State where
  a : Nat
  b : Nat
  c : Nat
  d : Nat
deriving DecidableEq

/-- Little-endian 32-bit word `g` of a 64-byte block. -/
def wordAt (block : List Nat) (g : Nat) : Nat :=
  block.getD (4 * g) 0 + 256 * block.getD (4 * g + 1) 0 +
    65536 * block.getD (4 * g + 2) 0 + 16777216 * block.getD (4 * g + 3) 0

/-- One MD5 round. -/
def md5Step (block : List Nat) (st : MD5State) (i : Nat) : MD5State :=
  let f := add32 (add32 (add32 (md5F i st.b st.c st.d) st.a) (md5K.getD i 0))
    (wordAt block (md5G i))
  MD5State.mk st.d (add32 st.b (rotl32 f (md5Shifts.getD i 0))) st.b st.c

/-- One 64-byte MD5 block: 64 rounds, then add into the chaining words. -/
def md5Block (st : MD5State) (block : List Nat) : MD5State :=
  let t := (List.range 64).foldl (md5Step block) st
  MD5State.mk (add32 st.a t.a) (add32 st.b t.b) (add32 st.c t.c) (add32 st.d t.d)

/-- MD5 padding: `0x80`, zeros to 56 mod 64, then the bit length as a
little-endian 64-bit integer. -/
def md5Pad (msg : List Nat) : List Nat :=
  let z := (120 - ((msg.length + 1) % 64)) % 64
  msg ++ 128 :: List.replicate z 0 ++
    (List.range 8).map fun j => msg.length * 8 % 18446744073709551616 / 256 ^ j % 256

/-- Process `n` consecutive 64-byte blocks. -/
def md5Blocks : Nat → MD5State → List Nat → MD5State
  | 0, st, _ => st
  | n + 1, st, bs => md5Blocks n (md5Block st (bs.take 64)) (bs.drop 64)

/-- A 32-bit word as four little-endian bytes. -/
def wordLE (w : Nat) : List Nat := [w % 256, w / 256 % 256, w / 65536 % 256, w / 16777216 % 256]

/-- The MD5 digest (16 bytes) of a byte sequence — the pure function
computed by streaming the binary through `crypto/md5` in `md5File`. -/
def md5 (msg : List Nat) : List Nat :=
  let p := md5Pad msg
  let st := md5Blocks (p.length / 64) (MD5State.mk 0x67452301 0xefcdab89 0x98badcfe 0x10325476) p
  wordLE st.a ++ wordLE st.b ++ wordLE st.c ++ wordLE st.d

def hexAlphabet : List Char := ("0123456789abcdef").toList

/-- Lowercase hex digit, as `fmt`'s `%x` renders a nibble. -/
def hexDigitChar : Nat → Char
  | 0 => '0'
  | 1 => '1'
  | 2 => '2'
  | 3 => '3'
  | 4 => '4'
  | 5 => '5'
  | 6 => '6'
  | 7 => '7'
  | 8 => '8'
  | 9 => '9'
  | 10 => 'a'
  | 11 => 'b'
  | 12 => 'c'
  | 13 => 'd'
  | 14 => 'e'
  | 15 => 'f'
  | _ => '0'

/-- Two lowercase hex digits of one byte. -/
def hexByte (b : Nat) : List Char := [hexDigitChar (b / 16 % 16), hexDigitChar (b % 16)]

/-- `%x` of a byte slice: lowercase hex, two digits per byte. -/
def hexBytes : List Nat → List Char
  | [] => []
  | b :: rest => hexByte b ++ hexBytes rest

/-- The sidecar path `md5File` creates: `file + ".md5"`. -/
def md5SidecarPath (p : List Char) : List Char := p ++ ((".md5").toList)

/-- The sidecar bytes `md5File` writes via `Fprintf(out, "%x\n", ...)`:
lowercase hex digest of the binary's full content, then one newline. -/
def md5FileContent (content : List Nat) : List Char := hexBytes (md5 content) ++ ['\n']

/-- Two successive `md5File` runs over the same unchanged binary: the pair
of sidecar contents they write. -/
def md5FileTwice (content : List Nat) : List Char × List Char :=
  (md5FileContent content, md5FileContent content)

theorem hexDigitChar_mem (n : Nat) : hexDigitChar n ∈ hexAlphabet := by
  unfold hexDigitChar
  split <;> decide

theorem hexBytes_mem (bs : List Nat) : ∀ c ∈ hexBytes bs, c ∈ hexAlphabet := by
  induction bs with
  | nil => intro c hc; cases hc
  | cons b rest ih =>
    intro c hc
    rcases List.mem_append.mp hc with h | h
    · simp only [hexByte, List.mem_cons, List.not_mem_nil, or_false] at h
      rcases h with h | h <;> exact h ▸ hexDigitChar_mem _
    · exact ih c h

theorem hexBytes_length (bs : List Nat) : (hexBytes bs).length = 2 * bs.length := by
  induction bs with
  | nil => rfl
  | cons b rest ih => simp [hexBytes, hexByte, ih]; ring

theorem md5_length (msg : List Nat) : (md5 msg).length = 16 := by
  unfold md5 wordLE
  simp

set_option maxRecDepth 100000 in
/-- C10: the checksum sidecar is written at `<binaryPath>.md5`; its
content is exactly the lowercase hex digest of the binary's full bytes
(32 characters over `0123456789abcdef`, newline-free) followed by one
trailing newline; two runs over an unchanged binary write byte-identical
content; and the digest agrees with the published MD5 reference values on
the empty input and on `"abc"`. -/
theorem md5File_sidecar :
    (∀ p : List Char, md5SidecarPath p = p ++ ((".md5").toList)) ∧
    (∀ bs, md5FileContent bs = hexBytes (md5 bs) ++ ['\n']) ∧
    (∀ bs, (md5FileContent bs).length = 33 ∧ (hexBytes (md5 bs)).length = 32) ∧
    (∀ bs c, c ∈ hexBytes (md5 bs) → c ∈ hexAlphabet) ∧
    (∀ bs, '\n' ∉ hexBytes (md5 bs)) ∧
    (∀ bs, (md5FileTwice bs).1 = (md5FileTwice bs).2) ∧
    md5FileContent [] = ("d41d8cd98f00b204e9800998ecf8427e\n").toList ∧
    md5FileContent [97, 98, 99] = ("900150983cd24fb0d6963f7d28e17f72\n").toList := by
  refine ⟨fun p => rfl, fun bs => rfl, fun bs => ?_, fun bs c => hexBytes_mem (md5 bs) c,
    fun bs hmem => ?_, fun bs => rfl, by decide, by decide⟩
  · constructor
    · unfold md5FileContent
      rw [List.length_append, hexBytes_length, md5_length]
      decide
    · rw [hexBytes_length, md5_length]
  · have := hexBytes_mem (md5 bs) '\n' hmem
    revert this
    decide

set_option maxRecDepth 100000 in
theorem md5File_sidecar_witness : 'd' ∈ hexAlphabet :=
  md5File_sidecar.2.2.2.1 [] 'd' (by decide)

end SyncthingBuild
